import Mathlib

/-!
Shallow embedding of the Coda Packs listing/sync plugin (`src/packs/pack.ts`).

Pure functions model the formula bodies; the host fetcher and the remote
server are modelled as explicit inputs (response bodies), and the fetches a
formula issues are collected in an explicit trace, in program order, up to
the point where the formula returns or throws.  Helper functions imported
from `./helpers` and `./constants` (not part of the sources) are modelled
from the spec and marked as such in their doc comments.
-/

namespace PackExamples

/-- A JSON-like field value, as far as the listing items need: scalars and
the `categories` list of strings. -/
inductive Value where
  | str (s : String)
  | num (n : Int)
  | bool (b : Bool)
  | strList (ss : List String)
deriving DecidableEq

/-- An item returned by the listings API: a mapping from field name to
value, kept in server order. -/
abbrev Item := List (String × Value)

/-- Errors a formula can throw.  `userVisible` is `coda.UserVisibleError`,
`configuration` is the design-level `ConfigurationError` of the enrichment
registry, `plain` is a bare `new Error`, and `jsRuntime` is a JavaScript
runtime `TypeError` (e.g. reading a property of `undefined`). -/
inductive PackError where
  | userVisible (message : String)
  | configuration (message : String)
  | plain (message : String)
  | jsRuntime (message : String)
deriving DecidableEq

/-- One request given to `context.fetcher.fetch`. -/
structure FetchReq where
  method : String
  url : String
  disableAuthentication : Bool
deriving DecidableEq

/-- Model of `coda.joinUrl`: joins path segments. -/
def joinUrl (parts : List String) : String :=
  String.intercalate "/" parts

/-- JavaScript serialization of a boolean query-parameter value. -/
def boolStr (b : Bool) : String :=
  if b then "true" else "false"

/-- Model of `coda.withQueryParams`: appends the query string. -/
def withQueryParams (base : String) (params : List (String × String)) : String :=
  base ++ "?" ++ String.intercalate "&" (params.map (fun kv => kv.1 ++ "=" ++ kv.2))

/-- Modelled from the spec: `formatItem` of `helpers.ts` is not under the
sources; per the spec it is a field-renaming pass that canonicalizes the
server field names to the schema names (renaming identifiers), here the
identifier field `id` to `packId`. -/
def renameKeyForward (k : String) : String :=
  if k = "id" then "packId" else k

/-- Modelled from the spec: the inverse renaming used by `unformatItem`
before sending edited items back to the server. -/
def renameKeyBackward (k : String) : String :=
  if k = "packId" then "id" else k

/-- Modelled from the spec: `formatItem` renames each field to its schema
name. -/
def formatItem (i : Item) : Item :=
  i.map (fun kv => (renameKeyForward kv.1, kv.2))

/-- Modelled from the spec: `unformatItem` renames each field back to its
server name. -/
def unformatItem (i : Item) : Item :=
  i.map (fun kv => (renameKeyBackward kv.1, kv.2))

/-- The continuation of a sync table: a mapping with the single key `url`
holding the next-page link. -/
structure Continuation where
  url : String
deriving DecidableEq

/-- The body of one listings response: the page of items and the optional
`nextPageLink`. -/
structure ListingBody where
  items : List Item
  nextPageLink : Option String
deriving DecidableEq

/-- Lines 149-152 and 198-201 of `pack.ts`:
`if (nextPageLink) continuation = \x7b url: nextPageLink \x7d` — the JavaScript
truthiness test drops both an absent and an empty link. -/
def deriveContinuation : Option String → Option Continuation
  | none => none
  | some s => if s = "" then none else some (Continuation.mk s)

/-- Modelled from the spec: an enrichment handler of the registry
(`constants.ts` / `helpers.ts`, not under the sources).  It reads an item of
the fetched page and either fails (`none`) or produces the extra fields it
attaches to that item. -/
structure EnrichmentHandler where
  enrich : Item → Option (List (String × Value))

/-- Modelled from the spec: the effect of the settled enrichment jobs on one
item — each handler that succeeds on the item appends its extra fields, a
failing handler contributes nothing. -/
def enrichItem (hs : List EnrichmentHandler) (i : Item) : Item :=
  i ++ (hs.filterMap (fun h => h.enrich i)).flatten

/-- Lines 143-148 of `pack.ts`: all enrichment jobs are started and joined
with `Promise.allSettled`; individual failures are tolerated and the page is
kept whole. -/
def runJobsSettled (hs : List EnrichmentHandler) (items : List Item) : List Item :=
  items.map (enrichItem hs)

/-- Modelled from the spec: `getMetdataSettings` looks a metadata key up in
the static registry; an unknown key fails with a `ConfigurationError`. -/
def getMetdataSettings (registry : List (String × EnrichmentHandler)) (key : String) :
    Except PackError EnrichmentHandler :=
  match registry.lookup key with
  | some h => Except.ok h
  | none => Except.error (PackError.configuration ("Unknown metadata key: " ++ key))

/-- Lines 144-147 of `pack.ts`: the loop over the requested metadata keys —
each key is looked up in turn and the first unknown key throws. -/
def collectHandlers (registry : List (String × EnrichmentHandler)) :
    List String → Except PackError (List EnrichmentHandler)
  | [] => Except.ok []
  | k :: ks =>
    match getMetdataSettings registry k with
    | Except.error e => Except.error e
    | Except.ok h =>
      match collectHandlers registry ks with
      | Except.error e => Except.error e
      | Except.ok hs => Except.ok (h :: hs)

/-- The parameters of the `SyncPacks` formula. -/
structure SyncPacksArgs where
  includePublished : Bool
  includeWorkspace : Bool
  includePrivate : Bool
  metadata : List String
deriving DecidableEq

/-- The value a sync execution returns: the page of items and the optional
continuation. -/
structure SyncResult where
  result : List Item
  continuation : Option Continuation
deriving DecidableEq

/-- Lines 125-134 of `pack.ts`: `let url = context.sync.continuation?.url;
if (!url) \x7b ... \x7d` — a missing continuation, and by JavaScript truthiness an
empty token, fall back to the initial listings URL built from the filter
flags and the fixed page size. -/
def syncPacksUrl (host : String) (args : SyncPacksArgs) (cont : Option Continuation) : String :=
  let url := match cont with
    | some c => c.url
    | none => ""
  if url = "" then
    withQueryParams (joinUrl [host, "apis/v1/packs/listings"])
      [("excludePublicPacks", boolStr (!args.includePublished)),
       ("excludeWorkspaceAcls", boolStr (!args.includeWorkspace)),
       ("excludeIndividualAcls", boolStr (!args.includePrivate)),
       ("limit", "20")]
  else url

/-- Lines 118-157 of `pack.ts`: the `SyncPacks` execute.  Returns the trace
of fetches issued (in program order, up to the return or the throw) together
with the outcome.  The page fetch is issued first; the metadata keys are
looked up only afterwards, so an unknown key throws after the page fetch. -/
def syncPacksExecute (registry : List (String × EnrichmentHandler)) (host : String)
    (args : SyncPacksArgs) (cont : Option Continuation) (body : ListingBody) :
    List FetchReq × Except PackError SyncResult :=
  let url := syncPacksUrl host args cont
  let trace := [FetchReq.mk "GET" url false]
  let items := body.items.map formatItem
  match collectHandlers registry args.metadata with
  | Except.error e => (trace, Except.error e)
  | Except.ok hs =>
    (trace, Except.ok (SyncResult.mk (runJobsSettled hs items)
      (deriveContinuation body.nextPageLink)))

/-- Lines 182-189 of `pack.ts`: the URL of the `SyncMyPacks` page fetch. -/
def syncMyPacksUrl (host : String) (cont : Option Continuation) : String :=
  let url := match cont with
    | some c => c.url
    | none => ""
  if url = "" then
    withQueryParams (joinUrl [host, "apis/v1/packs"])
      [("accessTypes", "edit,admin"), ("limit", "20")]
  else url

/-- Lines 181-206 of `pack.ts`: the `SyncMyPacks` execute. -/
def syncMyPacksExecute (host : String) (cont : Option Continuation) (body : ListingBody) :
    List FetchReq × Except PackError SyncResult :=
  let url := syncMyPacksUrl host cont
  ([FetchReq.mk "GET" url false],
    Except.ok (SyncResult.mk (body.items.map formatItem)
      (deriveContinuation body.nextPageLink)))

/-- Lines 77-84 and 168-175 of `pack.ts`: the dynamic `propertyOptions`
callback.  The `categories` arm delegates to the `getCategories`
collaborator (modelled by the `getCats` argument: its fetches and its
values); the default arm throws synchronously, before any fetch. -/
def propertyOptions (getCats : List FetchReq × List String) (propertyName : String) :
    List FetchReq × Except PackError (List String) :=
  if propertyName = "categories" then
    (getCats.1, Except.ok getCats.2)
  else
    ([], Except.error (PackError.userVisible ("Unknown property: " ++ propertyName)))

/-- Lines 32-57 of `pack.ts`: the `Pack` formula.  An empty listings
response throws a descriptive `UserVisibleError` naming the requested Pack;
otherwise the first item is normalized, enriched by every registry handler,
and returned. -/
def packExecute (registry : List (String × EnrichmentHandler)) (packIdOrUrl : String)
    (body : ListingBody) : Except PackError Item :=
  match body.items with
  | [] => Except.error (PackError.userVisible ("Pack not found: " ++ packIdOrUrl))
  | item :: _ => Except.ok (enrichItem (registry.map Prod.snd) (formatItem item))

/-- A category add/remove job of the `executeUpdate` path. -/
inductive CatJob where
  | remove (category : String)
  | add (category : String)
deriving DecidableEq

/-- Lines 214-218 of `pack.ts`: one removal job per category of the previous
value that the new value no longer contains, in the previous order. -/
def removalJobs (prev next : List String) : List CatJob :=
  (prev.filter (fun c => !(decide (c ∈ next)))).map CatJob.remove

/-- Lines 219-223 of `pack.ts`: one addition job per category of the new
value that the previous value did not contain, in the new order. -/
def additionJobs (prev next : List String) : List CatJob :=
  (next.filter (fun c => !(decide (c ∈ prev)))).map CatJob.add

/-- Lines 213-223 of `pack.ts`: all category jobs, in the order they are
pushed into the single `jobs` array — removals first, then additions. -/
def categoryJobs (prev next : List String) : List CatJob :=
  removalJobs prev next ++ additionJobs prev next

/-- Line 224 of `pack.ts`: the category jobs are awaited by one single
`await Promise.all(jobs)` — one batch containing every job. -/
def updateJobBatches (prev next : List String) : List (List CatJob) :=
  [categoryJobs prev next]

/-- Semantics of batched promise groups: every job of a batch is started
when it is created (a JavaScript async call runs up to its first await as
soon as it is made); a later batch starts only if every job of the earlier
batches succeeded.  Returns the jobs that start, given each job's
outcome. -/
def batchesStarted (ok : CatJob → Bool) : List (List CatJob) → List CatJob
  | [] => []
  | b :: rest => b ++ (if b.all ok then batchesStarted ok rest else [])

/-- Whether `executeUpdate` reaches the PATCH request: `await Promise.all`
rejects, and the update aborts, as soon as any category job fails. -/
def updateReachesPatch (prev next : List String) (ok : CatJob → Bool) : Bool :=
  (updateJobBatches prev next).all (fun b => b.all ok)

/-- One pending row edit handed to `executeUpdate`. -/
structure RowUpdate where
  previousValue : Item
  newValue : Item
  updatedFields : List String
deriving DecidableEq

/-- Reads the `categories` field of an item as a list of strings; `none`
models the JavaScript `undefined` / wrongly-shaped case, where iterating it
throws. -/
def itemCategories (i : Item) : Option (List String) :=
  match i.lookup "categories" with
  | some (Value.strList ss) => some ss
  | _ => none

/-- What `executeUpdate` produces on its happy path: the category-job
batches it awaits, the body of the PATCH request, and the record sequence it
returns. -/
structure UpdateOutcome where
  batches : List (List CatJob)
  patchBody : Item
  result : List Item
deriving DecidableEq

/-- Lines 227-243 of `pack.ts`: the tail of `executeUpdate` — the new value
is un-normalized in place (`unformatItem(pack)`), the PATCH body keeps
exactly its entries whose names appear in `updatedFields`, and the PATCH
response is normalized and returned as the single record. -/
def executeUpdateTail (update : RowUpdate) (batches : List (List CatJob))
    (patchResponse : Item) : Except PackError UpdateOutcome :=
  let packU := unformatItem update.newValue
  let body := packU.filter (fun kv => decide (kv.1 ∈ update.updatedFields))
  Except.ok (UpdateOutcome.mk batches body [formatItem patchResponse])

/-- Lines 207-244 of `pack.ts`: the `SyncMyPacks` `executeUpdate`.  Only
`updates[0]` is read (an empty batch crashes on `undefined`); the category
jobs run only when `categories` is among the updated fields, as the single
batch of `updateJobBatches`; `patchResponse` models the body of the PATCH
response. -/
def executeUpdate (updates : List RowUpdate) (patchResponse : Item) :
    Except PackError UpdateOutcome :=
  match updates with
  | [] => Except.error (PackError.jsRuntime "Cannot read properties of undefined")
  | update :: _ =>
    if decide ("categories" ∈ update.updatedFields) then
      match itemCategories update.previousValue, itemCategories update.newValue with
      | some prev, some next =>
        executeUpdateTail update (updateJobBatches prev next) patchResponse
      | _, _ => Except.error (PackError.jsRuntime "categories is not iterable")
    else
      executeUpdateTail update [] patchResponse

/-- An entry of the version listing used by `SourceCode`. -/
structure PackVersion where
  packVersion : String
deriving DecidableEq

/-- An entry of the file listing used by `SourceCode`. -/
structure PackFile where
  url : String
deriving DecidableEq

/-- The collaborators the `SourceCode` formula reads: `getVersions`,
`getFiles` (helpers, modelled as data: the version listing and the file
listing of each version, `none` for a missing listing) and the body each
URL serves. -/
structure SourceWorld where
  versions : List PackVersion
  files : String → Option (List PackFile)
  fetchBody : String → String

/-- Model of the `escape-html` package: the five significant HTML
characters become entities. -/
def escapeChar (c : Char) : String :=
  if c = Char.ofNat 38 then "&amp;"
  else if c = Char.ofNat 60 then "&lt;"
  else if c = Char.ofNat 62 then "&gt;"
  else if c = Char.ofNat 34 then "&quot;"
  else if c = Char.ofNat 39 then "&#39;"
  else String.singleton c

/-- HTML-escapes a string character by character. -/
def escapeHtml (s : String) : String :=
  String.join (s.data.map escapeChar)

/-- Lines 270-282 of `pack.ts`: given the resolved version, fetch the first
file of that version's file listing with authentication disabled and return
the escaped, `<pre>`-wrapped code; an absent or empty file listing throws. -/
def sourceCodeFetch (world : SourceWorld) (version : String) :
    List FetchReq × Except PackError String :=
  match world.files version with
  | none => ([], Except.error (PackError.plain "No source code found."))
  | some [] => ([], Except.error (PackError.plain "No source code found."))
  | some (file :: _) =>
    ([FetchReq.mk "GET" file.url true],
      Except.ok ("<pre>" ++ escapeHtml (world.fetchBody file.url) ++ "</pre>"))

/-- Lines 263-282 of `pack.ts`: the `SourceCode` execute.  A missing (or,
by JavaScript truthiness, empty) version argument falls back to
`versions[0].packVersion`; an empty version listing then crashes reading
`undefined`. -/
def sourceCodeExecute (world : SourceWorld) (versionArg : Option String) :
    List FetchReq × Except PackError String :=
  let version := match versionArg with
    | some v => v
    | none => ""
  if version = "" then
    match world.versions with
    | [] => ([], Except.error (PackError.jsRuntime "Cannot read properties of undefined"))
    | v :: _ => sourceCodeFetch world v.packVersion
  else
    sourceCodeFetch world version

/-! ### Helper lemmas -/

lemma count_filter_map_jobs (f : String → CatJob) (hf : Function.Injective f)
    (c : String) (l bad : List String) (hl : l.Nodup) :
    ((l.filter (fun x => !(decide (x ∈ bad)))).map f).count (f c) =
      if c ∈ l ∧ c ∉ bad then 1 else 0 := by
  rw [List.count_map_of_injective _ f hf]
  by_cases hcb : c ∈ bad
  · rw [if_neg (by simp [hcb])]
    exact List.count_eq_zero.mpr (by simp [List.mem_filter, hcb])
  · by_cases hcl : c ∈ l
    · rw [if_pos ⟨hcl, hcb⟩]
      exact List.count_eq_one_of_mem (hl.filter _) (by simp [List.mem_filter, hcl, hcb])
    · rw [if_neg (by simp [hcl])]
      exact List.count_eq_zero.mpr (by simp [List.mem_filter, hcl])

lemma count_map_jobs_of_ne (f : String → CatJob) (j : CatJob)
    (hj : ∀ x, f x ≠ j) (l : List String) : (l.map f).count j = 0 :=
  List.count_eq_zero.mpr (by simp [List.mem_map]; intro x _ h; exact hj x h)

/-! ### C1 -/

/-- C1: the claim states that in the `SyncMyPacks` update path every
category-removal job settles successfully before any category-addition job
starts, and that a removal failure aborts the update before additions run.
This is false on the code: lines 213-224 push removals and additions into
one `jobs` array and await them with a single `Promise.all`, so every
addition job starts regardless of the removal outcomes.  Concretely, with
previous categories `["A"]`, new categories `["C"]` and an outcome under
which the removal of `"A"` fails, the addition of `"C"` still starts. -/
theorem c1_removal_barrier_counterexample :
    CatJob.remove "A" ∈ removalJobs ["A"] ["C"] ∧
    (fun j => !(decide (j = CatJob.remove "A"))) (CatJob.remove "A") = false ∧
    CatJob.add "C" ∈ batchesStarted (fun j => !(decide (j = CatJob.remove "A")))
      (updateJobBatches ["A"] ["C"]) := by
  decide

/-- C1 (amended): the removal and addition jobs are issued together as one
group awaited by a single `Promise.all`; every issued job, additions
included, starts regardless of the other jobs' outcomes, and the update
reaches the PATCH step exactly when every job of the group succeeds — so a
single removal failure still aborts the update before the PATCH, but only
after the additions have started. -/
theorem c1_single_promise_all_group (prev next : List String) (ok : CatJob → Bool) :
    batchesStarted ok (updateJobBatches prev next) = categoryJobs prev next ∧
    (updateReachesPatch prev next ok = true ↔ ∀ j ∈ categoryJobs prev next, ok j = true) := by
  constructor
  · cases h : (categoryJobs prev next).all ok <;>
      simp [batchesStarted, updateJobBatches, h]
  · simp [updateReachesPatch, updateJobBatches, List.all_eq_true]

/-! ### C2 -/

/-- C2: for duplicate-free previous and new category sets, the update path
issues exactly one removal job per category in the previous set but not the
new one, exactly one addition job per category in the new set but not the
previous one, and no job at all for a category present in both. -/
theorem c2_category_diff (prev next : List String) (hp : prev.Nodup) (hn : next.Nodup)
    (c : String) :
    (categoryJobs prev next).count (CatJob.remove c) =
      (if c ∈ prev ∧ c ∉ next then 1 else 0) ∧
    (categoryJobs prev next).count (CatJob.add c) =
      (if c ∈ next ∧ c ∉ prev then 1 else 0) ∧
    (c ∈ prev → c ∈ next →
      CatJob.remove c ∉ categoryJobs prev next ∧ CatJob.add c ∉ categoryJobs prev next) := by
  have hrem : (categoryJobs prev next).count (CatJob.remove c) =
      if c ∈ prev ∧ c ∉ next then 1 else 0 := by
    rw [categoryJobs, List.count_append, additionJobs,
      count_map_jobs_of_ne CatJob.add (CatJob.remove c) (by intro x h; cases h),
      Nat.add_zero, removalJobs,
      count_filter_map_jobs CatJob.remove (fun a b h => by cases h; rfl) c prev next hp]
  have hadd : (categoryJobs prev next).count (CatJob.add c) =
      if c ∈ next ∧ c ∉ prev then 1 else 0 := by
    rw [categoryJobs, List.count_append, removalJobs,
      count_map_jobs_of_ne CatJob.remove (CatJob.add c) (by intro x h; cases h),
      Nat.zero_add, additionJobs,
      count_filter_map_jobs CatJob.add (fun a b h => by cases h; rfl) c next prev hn]
  refine ⟨hrem, hadd, fun hcp hcn => ⟨?_, ?_⟩⟩
  · rw [← List.count_pos_iff, hrem, if_neg (by simp [hcn])]
    simp
  · rw [← List.count_pos_iff, hadd, if_neg (by simp [hcp])]
    simp

/-- C2 witness: previous categories `["A", "B"]` and new categories
`["B", "C"]` — one removal for `"A"`, and `"B"` triggers neither job. -/
theorem c2_category_diff_witness :
    ((categoryJobs ["A", "B"] ["B", "C"]).count (CatJob.remove "A") =
      (if "A" ∈ ["A", "B"] ∧ "A" ∉ ["B", "C"] then 1 else 0) ∧
    (categoryJobs ["A", "B"] ["B", "C"]).count (CatJob.add "A") =
      (if "A" ∈ ["B", "C"] ∧ "A" ∉ ["A", "B"] then 1 else 0) ∧
    ("A" ∈ ["A", "B"] → "A" ∈ ["B", "C"] →
      CatJob.remove "A" ∉ categoryJobs ["A", "B"] ["B", "C"] ∧
      CatJob.add "A" ∉ categoryJobs ["A", "B"] ["B", "C"])) ∧
    ((categoryJobs ["A", "B"] ["B", "C"]).count (CatJob.remove "B") =
      (if "B" ∈ ["A", "B"] ∧ "B" ∉ ["B", "C"] then 1 else 0) ∧
    (categoryJobs ["A", "B"] ["B", "C"]).count (CatJob.add "B") =
      (if "B" ∈ ["B", "C"] ∧ "B" ∉ ["A", "B"] then 1 else 0) ∧
    ("B" ∈ ["A", "B"] → "B" ∈ ["B", "C"] →
      CatJob.remove "B" ∉ categoryJobs ["A", "B"] ["B", "C"] ∧
      CatJob.add "B" ∉ categoryJobs ["A", "B"] ["B", "C"])) :=
  ⟨c2_category_diff ["A", "B"] ["B", "C"] (by decide) (by decide) "A",
   c2_category_diff ["A", "B"] ["B", "C"] (by decide) (by decide) "B"⟩

/-! ### C3 -/

lemma collectHandlers_unknown (registry : List (String × EnrichmentHandler))
    (keys : List String) (k : String) (hk : k ∈ keys) (hu : registry.lookup k = none) :
    ∃ msg, collectHandlers registry keys = Except.error (PackError.configuration msg) := by
  induction keys with
  | nil => cases hk
  | cons a as ih =>
    rw [collectHandlers]
    cases hka : registry.lookup a with
    | none => exact ⟨"Unknown metadata key: " ++ a, by simp [getMetdataSettings, hka]⟩
    | some h =>
      rcases List.mem_cons.mp hk with rfl | hmem
      · rw [hka] at hu
        cases hu
      · obtain ⟨msg, hmsg⟩ := ih hmem
        exact ⟨msg, by simp [getMetdataSettings, hka, hmsg]⟩

/-- A sample enrichment registry with one known key, used to exercise the
unknown-key path of `SyncPacks`. -/
def sampleRegistry : List (String × EnrichmentHandler) :=
  [("versions", EnrichmentHandler.mk (fun _ => some []))]

/-- C3: the claim states that an unknown metadata key is rejected
immediately and synchronously, before any network fetch.  This is false on
the code: `SyncPacks.execute` awaits the listing-page fetch (line 135)
before it looks the metadata keys up (line 145), so requesting the unknown
key `"bogus"` fails only after the page fetch was issued — the fetch trace
at the throw is not empty. -/
theorem c3_error_before_fetch_counterexample :
    (syncPacksExecute sampleRegistry "https://coda.io"
      (SyncPacksArgs.mk true false false ["bogus"]) none (ListingBody.mk [] none)).2 =
      Except.error (PackError.configuration ("Unknown metadata key: " ++ "bogus")) ∧
    (syncPacksExecute sampleRegistry "https://coda.io"
      (SyncPacksArgs.mk true false false ["bogus"]) none (ListingBody.mk [] none)).1 ≠ [] := by
  constructor
  · rfl
  · cases hc : collectHandlers sampleRegistry ["bogus"] <;> simp [syncPacksExecute, hc]

/-- C3 (amended): an unknown dynamic property name is rejected synchronously
in `propertyOptions`, with no fetch issued; an unknown metadata key is
detected only during the sync execution, with a ConfigurationError, after
the listing-page fetch is already in the trace. -/
theorem c3_config_error_timing (getCats : List FetchReq × List String) (name : String)
    (hname : name ≠ "categories")
    (registry : List (String × EnrichmentHandler)) (host : String) (args : SyncPacksArgs)
    (cont : Option Continuation) (body : ListingBody) (key : String)
    (hk : key ∈ args.metadata) (hu : registry.lookup key = none) :
    propertyOptions getCats name =
      ([], Except.error (PackError.userVisible ("Unknown property: " ++ name))) ∧
    (∃ msg, (syncPacksExecute registry host args cont body).2 =
      Except.error (PackError.configuration msg)) ∧
    (syncPacksExecute registry host args cont body).1 =
      [FetchReq.mk "GET" (syncPacksUrl host args cont) false] := by
  obtain ⟨msg, hmsg⟩ := collectHandlers_unknown registry args.metadata key hk hu
  refine ⟨by simp [propertyOptions, hname], ⟨msg, ?_⟩, ?_⟩
  · simp [syncPacksExecute, hmsg]
  · simp [syncPacksExecute, hmsg]

/-- C3 witness for the amended theorem, at the property name `"bogus"` and
the unknown metadata key `"bogus"`. -/
theorem c3_config_error_timing_witness :
    propertyOptions ([], []) "bogus" =
      ([], Except.error (PackError.userVisible ("Unknown property: " ++ "bogus"))) ∧
    (∃ msg, (syncPacksExecute sampleRegistry "h"
      (SyncPacksArgs.mk true false false ["bogus"]) none (ListingBody.mk [] none)).2 =
      Except.error (PackError.configuration msg)) ∧
    (syncPacksExecute sampleRegistry "h"
      (SyncPacksArgs.mk true false false ["bogus"]) none (ListingBody.mk [] none)).1 =
      [FetchReq.mk "GET"
        (syncPacksUrl "h" (SyncPacksArgs.mk true false false ["bogus"]) none) false] :=
  c3_config_error_timing ([], []) "bogus" (by decide) sampleRegistry "h"
    (SyncPacksArgs.mk true false false ["bogus"]) none (ListingBody.mk [] none) "bogus"
    (by decide) rfl

/-! ### C4 -/

lemma deriveContinuation_map (link : Option String) (hl : ∀ s, link = some s → s ≠ "") :
    deriveContinuation link = link.map Continuation.mk := by
  cases link with
  | none => rfl
  | some s => simp [deriveContinuation, hl s rfl]

/-- C4: a sync execution (`SyncPacks` or `SyncMyPacks`) that returns a
result carries a continuation exactly when the response body carries a
next-page link, and the continuation is then the single-key `url` mapping
holding that link verbatim; with no link the sync is terminal and no
continuation is returned.  (A link, when present, is a nonempty string.) -/
theorem c4_continuation_iff (registry : List (String × EnrichmentHandler)) (host : String)
    (args : SyncPacksArgs) (cont : Option Continuation) (body : ListingBody)
    (host2 : String) (cont2 : Option Continuation) (body2 : ListingBody)
    (h1 : ∀ s, body.nextPageLink = some s → s ≠ "")
    (h2 : ∀ s, body2.nextPageLink = some s → s ≠ "") :
    (∀ r, (syncPacksExecute registry host args cont body).2 = Except.ok r →
      r.continuation = body.nextPageLink.map Continuation.mk) ∧
    (∀ r, (syncMyPacksExecute host2 cont2 body2).2 = Except.ok r →
      r.continuation = body2.nextPageLink.map Continuation.mk) := by
  constructor
  · intro r hr
    rw [syncPacksExecute] at hr
    cases hc : collectHandlers registry args.metadata with
    | error e =>
      rw [hc] at hr
      simp at hr
    | ok hs =>
      rw [hc] at hr
      simp at hr
      rw [← hr, deriveContinuation_map body.nextPageLink h1]
  · intro r hr
    rw [syncMyPacksExecute] at hr
    simp at hr
    rw [← hr, deriveContinuation_map body2.nextPageLink h2]

/-- C4 witness: a `SyncPacks` page whose body carries the link `"L"` yields
the continuation `\x7b url := "L" \x7d`, and a `SyncMyPacks` page with no link
yields no continuation. -/
theorem c4_continuation_iff_witness :
    (∀ s, (some "L" : Option String) = some s → s ≠ "") ∧
    (∀ r, (syncPacksExecute [] "h" (SyncPacksArgs.mk true false false []) none
        (ListingBody.mk [] (some "L"))).2 = Except.ok r →
      r.continuation = (some "L" : Option String).map Continuation.mk) ∧
    (∀ r, (syncMyPacksExecute "h" none (ListingBody.mk [] none)).2 = Except.ok r →
      r.continuation = (none : Option String).map Continuation.mk) := by
  have h1 : ∀ s, (some "L" : Option String) = some s → s ≠ "" := by
    intro s hs
    injection hs with h
    rw [← h]
    decide
  have h := c4_continuation_iff [] "h" (SyncPacksArgs.mk true false false []) none
    (ListingBody.mk [] (some "L")) "h" none (ListingBody.mk [] none) h1
    (by intro s hs; cases hs)
  exact ⟨h1, h.1, h.2⟩

/-! ### C5 -/

lemma syncPacksExecute_trace (registry : List (String × EnrichmentHandler)) (host : String)
    (args : SyncPacksArgs) (cont : Option Continuation) (body : ListingBody) :
    (syncPacksExecute registry host args cont body).1 =
      [FetchReq.mk "GET" (syncPacksUrl host args cont) false] := by
  cases hc : collectHandlers registry args.metadata <;> simp [syncPacksExecute, hc]

/-- C5: a `SyncPacks` invocation whose continuation carries a token fetches
that token verbatim (no filter parameters reapplied); with no continuation
the fetched URL is the listings endpoint with `excludePublicPacks` the
negation of `includePublished`, `excludeWorkspaceAcls` the negation of
`includeWorkspace`, `excludeIndividualAcls` the negation of
`includePrivate`, and the fixed page size 20. -/
theorem c5_fetch_url (registry : List (String × EnrichmentHandler)) (host : String)
    (args : SyncPacksArgs) (cont : Option Continuation) (body : ListingBody) :
    (∀ c, cont = some c → c.url ≠ "" →
      (syncPacksExecute registry host args cont body).1 = [FetchReq.mk "GET" c.url false]) ∧
    (cont = none →
      (syncPacksExecute registry host args cont body).1 =
        [FetchReq.mk "GET"
          (withQueryParams (joinUrl [host, "apis/v1/packs/listings"])
            [("excludePublicPacks", boolStr (!args.includePublished)),
             ("excludeWorkspaceAcls", boolStr (!args.includeWorkspace)),
             ("excludeIndividualAcls", boolStr (!args.includePrivate)),
             ("limit", "20")]) false]) := by
  constructor
  · intro c hcont hne
    subst hcont
    rw [syncPacksExecute_trace, syncPacksUrl]
    simp [hne]
  · intro hcont
    subst hcont
    rw [syncPacksExecute_trace, syncPacksUrl]
    simp

/-- C5 witness: with the continuation token `"T"` the fetch is `"T"` itself;
with no continuation and `includePublished := true`,
`includeWorkspace := false`, `includePrivate := false` the initial URL is
built from the listings endpoint with the negated flags and limit 20. -/
theorem c5_fetch_url_witness :
    ((syncPacksExecute [] "h" (SyncPacksArgs.mk true false false [])
      (some (Continuation.mk "T")) (ListingBody.mk [] none)).1 =
      [FetchReq.mk "GET" "T" false]) ∧
    ((syncPacksExecute [] "h" (SyncPacksArgs.mk true false false []) none
      (ListingBody.mk [] none)).1 =
      [FetchReq.mk "GET"
        (withQueryParams (joinUrl ["h", "apis/v1/packs/listings"])
          [("excludePublicPacks", boolStr false),
           ("excludeWorkspaceAcls", boolStr true),
           ("excludeIndividualAcls", boolStr true),
           ("limit", "20")]) false]) :=
  ⟨(c5_fetch_url [] "h" (SyncPacksArgs.mk true false false [])
      (some (Continuation.mk "T")) (ListingBody.mk [] none)).1
      (Continuation.mk "T") rfl (by decide),
   (c5_fetch_url [] "h" (SyncPacksArgs.mk true false false []) none
      (ListingBody.mk [] none)).2 rfl⟩

/-! ### C6 -/

/-- C6: enrichment is best effort.  A page execution that returns keeps all
N items of the page whatever the handlers do; with no requested metadata
keys the items are returned untouched by enrichment; a handler that fails on
an item contributes nothing — removing it changes nothing — while the fields
of any succeeding handler are all present on the enriched item. -/
theorem c6_best_effort_enrichment (registry : List (String × EnrichmentHandler))
    (host : String) (args : SyncPacksArgs) (cont : Option Continuation) (body : ListingBody)
    (pre post : List EnrichmentHandler) (hbad : EnrichmentHandler) (i : Item)
    (hfail : hbad.enrich i = none)
    (hgood : EnrichmentHandler) (fields : List (String × Value))
    (hgm : hgood ∈ pre ++ hbad :: post) (hge : hgood.enrich i = some fields) :
    (∀ r, (syncPacksExecute registry host args cont body).2 = Except.ok r →
      r.result.length = body.items.length) ∧
    (args.metadata = [] → (syncPacksExecute registry host args cont body).2 =
      Except.ok (SyncResult.mk (body.items.map formatItem)
        (deriveContinuation body.nextPageLink))) ∧
    enrichItem (pre ++ hbad :: post) i = enrichItem (pre ++ post) i ∧
    (∀ f ∈ fields, f ∈ enrichItem (pre ++ hbad :: post) i) := by
  refine ⟨?_, ?_, ?_, ?_⟩
  · intro r hr
    rw [syncPacksExecute] at hr
    cases hc : collectHandlers registry args.metadata with
    | error e =>
      rw [hc] at hr
      simp at hr
    | ok hs =>
      rw [hc] at hr
      simp at hr
      rw [← hr]
      simp [runJobsSettled]
  · intro hm
    simp [syncPacksExecute, hm, collectHandlers, runJobsSettled, enrichItem]
  · simp [enrichItem, List.filterMap_append, List.filterMap_cons, hfail]
  · intro f hf
    simp only [enrichItem, List.mem_append, List.mem_flatten, List.mem_filterMap]
    exact Or.inr ⟨fields, ⟨hgood, List.mem_append.mp hgm, hge⟩, hf⟩

/-- C6 witness: a page of two items with one succeeding and one failing
handler — both items come back, the failing handler changes nothing and the
succeeding handler's field is attached. -/
theorem c6_best_effort_enrichment_witness :
    (EnrichmentHandler.mk (fun _ => none)).enrich [] = none ∧
    (EnrichmentHandler.mk (fun _ => some [("extra", Value.str "v")])).enrich [] =
      some [("extra", Value.str "v")] ∧
    (∀ r, (syncPacksExecute [] "h" (SyncPacksArgs.mk true false false []) none
        (ListingBody.mk [[], [("name", Value.str "n")]] none)).2 = Except.ok r →
      r.result.length = (ListingBody.mk [[], [("name", Value.str "n")]] none).items.length) ∧
    enrichItem ([EnrichmentHandler.mk (fun _ => some [("extra", Value.str "v")])] ++
        EnrichmentHandler.mk (fun _ => none) :: []) [] =
      enrichItem ([EnrichmentHandler.mk (fun _ => some [("extra", Value.str "v")])] ++ []) [] ∧
    (∀ f ∈ [("extra", Value.str "v")],
      f ∈ enrichItem ([EnrichmentHandler.mk (fun _ => some [("extra", Value.str "v")])] ++
        EnrichmentHandler.mk (fun _ => none) :: []) []) := by
  have h := c6_best_effort_enrichment [] "h" (SyncPacksArgs.mk true false false []) none
    (ListingBody.mk [[], [("name", Value.str "n")]] none)
    [EnrichmentHandler.mk (fun _ => some [("extra", Value.str "v")])] []
    (EnrichmentHandler.mk (fun _ => none)) [] rfl
    (EnrichmentHandler.mk (fun _ => some [("extra", Value.str "v")]))
    [("extra", Value.str "v")] (List.mem_cons_self _ _) rfl
  exact ⟨rfl, rfl, h.1, h.2.2.1, h.2.2.2⟩

/-! ### C7 -/

/-- C7: a `Pack` lookup whose listing response holds zero items throws the
descriptive user-visible error naming the requested Pack, instead of
crashing or returning a value. -/
theorem c7_pack_not_found (registry : List (String × EnrichmentHandler))
    (packIdOrUrl : String) (body : ListingBody) (h : body.items = []) :
    packExecute registry packIdOrUrl body =
      Except.error (PackError.userVisible ("Pack not found: " ++ packIdOrUrl)) := by
  simp [packExecute, h]

/-- C7 witness: an empty listing for the request `"Foo"`. -/
theorem c7_pack_not_found_witness :
    (ListingBody.mk [] none).items = [] ∧
    packExecute [] "Foo" (ListingBody.mk [] none) =
      Except.error (PackError.userVisible ("Pack not found: " ++ "Foo")) :=
  ⟨rfl, c7_pack_not_found [] "Foo" (ListingBody.mk [] none) rfl⟩

/-! ### C8 -/

/-- C8: `formatItem` is idempotent on every item, and `unformatItem` inverts
it on every item whose fields round-trip (no field already carries the
schema-side name `packId`). -/
theorem c8_format_idempotent_inverse (i : Item) (h : "packId" ∉ i.map Prod.fst) :
    (∀ j : Item, formatItem (formatItem j) = formatItem j) ∧
    unformatItem (formatItem i) = i := by
  constructor
  · intro j
    rw [formatItem, formatItem, List.map_map]
    apply List.map_congr_left
    intro kv _
    by_cases hk : kv.1 = "id" <;> simp [renameKeyForward, hk]
  · rw [formatItem, unformatItem, List.map_map]
    nth_rewrite 2 [← List.map_id i]
    apply List.map_congr_left
    intro kv hkv
    have hne : kv.1 ≠ "packId" := by
      intro he
      exact h (List.mem_map.mpr ⟨kv, hkv, he⟩)
    obtain ⟨k, v⟩ := kv
    by_cases hk : k = "id" <;>
      simp_all [renameKeyForward, renameKeyBackward]

/-- C8 witness: the item with the server fields `id` and `name`. -/
theorem c8_format_idempotent_inverse_witness :
    "packId" ∉ ([("id", Value.str "7"), ("name", Value.str "n")] : Item).map Prod.fst ∧
    formatItem (formatItem [("id", Value.str "7"), ("name", Value.str "n")]) =
      formatItem [("id", Value.str "7"), ("name", Value.str "n")] ∧
    unformatItem (formatItem [("id", Value.str "7"), ("name", Value.str "n")]) =
      [("id", Value.str "7"), ("name", Value.str "n")] :=
  ⟨by decide,
   (c8_format_idempotent_inverse [("id", Value.str "7"), ("name", Value.str "n")]
     (by decide)).1 [("id", Value.str "7"), ("name", Value.str "n")],
   (c8_format_idempotent_inverse [("id", Value.str "7"), ("name", Value.str "n")]
     (by decide)).2⟩

/-! ### C9 -/

/-- C9: `executeUpdate` reads only the first update of the batch — any
further updates are ignored; when it returns, the PATCH body holds exactly
the entries of the first update's new value (as un-normalized for the server
by `unformatItem`) whose names appear in its `updatedFields`, and the result
sequence holds exactly one record. -/
theorem c9_first_update_only (u : RowUpdate) (rest : List RowUpdate) (resp : Item) :
    executeUpdate (u :: rest) resp = executeUpdate [u] resp ∧
    (∀ o, executeUpdate (u :: rest) resp = Except.ok o →
      o.patchBody = (unformatItem u.newValue).filter
        (fun kv => decide (kv.1 ∈ u.updatedFields)) ∧
      o.result.length = 1) := by
  constructor
  · rfl
  · intro o ho
    rw [executeUpdate] at ho
    by_cases hc : "categories" ∈ u.updatedFields
    · simp only [hc, decide_True, if_true] at ho
      cases hp : itemCategories u.previousValue with
      | none =>
        rw [hp] at ho
        cases hn : itemCategories u.newValue <;> rw [hn] at ho <;> simp at ho
      | some prev =>
        rw [hp] at ho
        cases hn : itemCategories u.newValue with
        | none =>
          rw [hn] at ho
          simp at ho
        | some next =>
          rw [hn] at ho
          simp [executeUpdateTail] at ho
          rw [← ho]
          exact ⟨rfl, rfl⟩
    · simp only [hc, decide_False, if_false] at ho
      simp [executeUpdateTail] at ho
      rw [← ho]
      exact ⟨rfl, rfl⟩

/-- C9 witness: a batch of two updates where only the first (renaming the
`name` field) is processed; the PATCH body keeps exactly the `name` entry
and one record is returned. -/
theorem c9_first_update_only_witness :
    executeUpdate
        [RowUpdate.mk [] [("name", Value.str "N"), ("description", Value.str "D")] ["name"],
         RowUpdate.mk [] [("name", Value.str "X")] ["name"]] [] =
      executeUpdate
        [RowUpdate.mk [] [("name", Value.str "N"), ("description", Value.str "D")] ["name"]]
        [] ∧
    (∀ o, executeUpdate
        [RowUpdate.mk [] [("name", Value.str "N"), ("description", Value.str "D")] ["name"],
         RowUpdate.mk [] [("name", Value.str "X")] ["name"]] [] = Except.ok o →
      o.patchBody = (unformatItem [("name", Value.str "N"), ("description", Value.str "D")]).filter
        (fun kv => decide (kv.1 ∈ ["name"])) ∧
      o.result.length = 1) :=
  c9_first_update_only
    (RowUpdate.mk [] [("name", Value.str "N"), ("description", Value.str "D")] ["name"])
    [RowUpdate.mk [] [("name", Value.str "X")] ["name"]] []

/-! ### C10 -/

/-- C10: `SourceCode` with an absent (or, by JavaScript truthiness, empty)
version argument uses the first entry of the version listing; an absent or
empty file listing for that version throws, and otherwise exactly one fetch
is issued — for the first file, with authentication explicitly disabled —
and the fetched code is returned HTML-escaped inside a `<pre>` element. -/
theorem c10_source_code (world : SourceWorld) (versionArg : Option String)
    (v : PackVersion) (vs : List PackVersion)
    (hv : world.versions = v :: vs)
    (hfalsy : versionArg = none ∨ versionArg = some "")
    (f : PackFile) (fs : List PackFile) :
    (world.files v.packVersion = none →
      sourceCodeExecute world versionArg =
        ([], Except.error (PackError.plain "No source code found."))) ∧
    (world.files v.packVersion = some [] →
      sourceCodeExecute world versionArg =
        ([], Except.error (PackError.plain "No source code found."))) ∧
    (world.files v.packVersion = some (f :: fs) →
      sourceCodeExecute world versionArg =
        ([FetchReq.mk "GET" f.url true],
          Except.ok ("<pre>" ++ escapeHtml (world.fetchBody f.url) ++ "</pre>"))) := by
  have hexec : sourceCodeExecute world versionArg = sourceCodeFetch world v.packVersion := by
    rcases hfalsy with rfl | rfl <;> simp [sourceCodeExecute, hv]
  refine ⟨?_, ?_, ?_⟩ <;> intro hf <;> rw [hexec] <;> simp [sourceCodeFetch, hf]

/-- The collaborator data of the `SourceCode` witness: one version `"1.0"`
whose file listing holds the single file `"u"` serving the code `a<b`. -/
def sourceWorldSample : SourceWorld :=
  SourceWorld.mk [PackVersion.mk "1.0"]
    (fun ver => if ver = "1.0" then some [PackFile.mk "u"] else none)
    (fun _ => "a<b")

/-- C10 witness: with no version argument, the single fetch targets the
first file of version `"1.0"` with authentication disabled, and the code
comes back escaped and `<pre>`-wrapped. -/
theorem c10_source_code_witness :
    sourceWorldSample.versions = PackVersion.mk "1.0" :: [] ∧
    sourceWorldSample.files (PackVersion.mk "1.0").packVersion = some [PackFile.mk "u"] ∧
    sourceCodeExecute sourceWorldSample none =
      ([FetchReq.mk "GET" "u" true],
        Except.ok ("<pre>" ++ escapeHtml (sourceWorldSample.fetchBody "u") ++ "</pre>")) :=
  ⟨rfl, rfl,
   (c10_source_code sourceWorldSample none (PackVersion.mk "1.0") [] rfl (Or.inl rfl)
     (PackFile.mk "u") []).2.2 rfl⟩

end PackExamples
